import Mathlib

/-!
Shallow embedding of the BrewMe brewery inventory core (services.py, db.py,
and the scaling/costing/logging flow of gui.py).

The SQLite store is modelled as a `DB` value: a list of `Ingredient` rows,
a list of `Recipe_Details` rows `(recipe_id, ingredient_id, quantity)`, and
a list of `Batch_Log` rows.  SQL `REAL` values are modelled as `ℚ`.
`db.connect_db()` returning `None` is modelled by passing `none : Option DB`
to an operation.  A `fetchone()` that yields no row and is then subscripted
or unpacked raises an untyped Python exception; this outcome is modelled as
a distinguished `crash` result (or `none` for the recursive cost function).
-/

namespace BrewMe

/-- Minimum batch size in BBL (services.py, `MIN_VOLUME_BBL`). -/
def MIN_VOLUME_BBL : ℚ := 0.5

/-- Retail markup factor (services.py, `COST_MARKUP`). -/
def COST_MARKUP : ℚ := 1.15

/-- A row of the `Ingredients` table (db.py, `create_tables`). -/
structure Ingredient where
  id : Nat
  name : String
  itype : String
  cost : ℚ
  detail1 : ℚ
  unit : String
  inventory_qty : ℚ
  deriving DecidableEq

/-- A row of the `Batch_Log` table (db.py, `create_tables`). -/
structure BatchRecord where
  recipe_name : String
  volume_BBL : ℚ
  final_cost : ℚ
  date_brewed : String
  deriving DecidableEq

/-- The persistent store: `Ingredients` rows, `Recipe_Details` rows
`(recipe_id, ingredient_id, quantity)`, and `Batch_Log` rows. -/
structure DB where
  ingredients : List Ingredient
  recipe_details : List (Nat × Nat × ℚ)
  batch_log : List BatchRecord
  deriving DecidableEq

/-- `SELECT ... FROM Ingredients WHERE id = ?` followed by `fetchone()`:
the first row with the given id, if any. -/
def findIngredient (db : DB) (iid : Nat) : Option Ingredient :=
  db.ingredients.find? (fun i => i.id == iid)

/-- `SELECT ingredient_id, quantity FROM Recipe_Details WHERE recipe_id = ?`
followed by `fetchall()` (services.py, `scale_recipe`). -/
def getComposition (db : DB) (rid : Nat) : List (Nat × ℚ) :=
  (db.recipe_details.filter (fun r => r.1 == rid)).map (fun r => (r.2.1, r.2.2))

/-- One entry of the scaled-ingredient list built by `scale_recipe`:
the dict with keys id, name, quantity, unit. -/
structure ScaledItem where
  id : Nat
  name : String
  quantity : ℚ
  unit : String
  deriving DecidableEq

/-- Outcome of `services.scale_recipe`: the raised `ValueError` for a bad
volume, an untyped crash (`fetchone()` returned no row to unpack), or the
ordinary return value `(scaled_ingredients, scale_factor)`. -/
inductive ScaleResult where
  | invalidVolume : ScaleResult
  | crash : ScaleResult
  | ok : List ScaledItem → ℚ → ScaleResult
  deriving DecidableEq

/-- The per-ingredient loop body of `scale_recipe`: for each
`(ingredient_id, original_qty)` pair, compute `original_qty * scale_factor`
and resolve name and unit from the `Ingredients` table; `none` models the
crash when the ingredient row is missing. -/
def scaleItems (db : DB) (factor : ℚ) : List (Nat × ℚ) → Option (List ScaledItem)
  | [] => some []
  | (iid, q) :: rest =>
    match findIngredient db iid with
    | none => none
    | some g =>
      match scaleItems db factor rest with
      | none => none
      | some tail => some (⟨iid, g.name, q * factor, g.unit⟩ :: tail)

/-- services.py `scale_recipe(recipe_id, original_volume, new_volume)`.
Volumes at or below `MIN_VOLUME_BBL` raise `ValueError`; a failed
connection returns the ordinary value `({}, 0)`. -/
def scale_recipe (conn : Option DB) (rid : Nat) (original_volume new_volume : ℚ) :
    ScaleResult :=
  if original_volume ≤ MIN_VOLUME_BBL ∨ new_volume ≤ MIN_VOLUME_BBL then
    ScaleResult.invalidVolume
  else
    let scale_factor := new_volume / original_volume
    match conn with
    | none => ScaleResult.ok [] 0
    | some db =>
      match scaleItems db scale_factor (getComposition db rid) with
      | none => ScaleResult.crash
      | some items => ScaleResult.ok items scale_factor

/-- services.py `calculate_recipe_cost(ingredient_list)`, the recursive cost
function.  Empty list: `0.0`.  Failed connection: `0.0`.  A missing
ingredient row makes `fetchone()[0]` raise, modelled as `none`; otherwise
the head's `cost * quantity` is added to the recursive call on the tail. -/
def calculate_recipe_cost (conn : Option DB) : List ScaledItem → Option ℚ
  | [] => some 0
  | item :: rest =>
    match conn with
    | none => some 0
    | some db =>
      match findIngredient db item.id with
      | none => none
      | some g =>
        match calculate_recipe_cost conn rest with
        | none => none
        | some tail => some (g.cost * item.quantity + tail)

/-- Fuel-instrumented variant of `calculate_recipe_cost`: each recursive
call consumes one unit of fuel, and an exhausted fuel supply is `none`.
Used to state that the recursion terminates within `length` calls. -/
def calcCostFuel (conn : Option DB) : Nat → List ScaledItem → Option (Option ℚ)
  | _, [] => some (some 0)
  | 0, _ :: _ => none
  | fuel + 1, item :: rest =>
    match conn with
    | none => some (some 0)
    | some db =>
      match findIngredient db item.id with
      | none => some none
      | some g =>
        match calcCostFuel conn fuel rest with
        | none => none
        | some none => some none
        | some (some tail) => some (some (g.cost * item.quantity + tail))

/-- The update applied to one `Ingredients` row by
`UPDATE Ingredients SET inventory_qty = MAX(0, inventory_qty + ?) WHERE id = ?`. -/
def updOne (iid : Nat) (delta : ℚ) (i : Ingredient) : Ingredient :=
  if i.id == iid then { i with inventory_qty := max 0 (i.inventory_qty + delta) } else i

/-- db.py `update_inventory_qty(conn, ingredient_id, delta_qty)`:
clamped additive stock adjustment on every row with the given id. -/
def update_inventory_qty (db : DB) (iid : Nat) (delta : ℚ) : DB :=
  { db with ingredients := db.ingredients.map (updOne iid delta) }

/-- db.py `log_batch(conn, recipe_name, volume, final_cost, date_brewed)`:
appends one row to `Batch_Log`. -/
def log_batch (db : DB) (rn : String) (v fc : ℚ) (d : String) : DB :=
  { db with batch_log := db.batch_log ++ [⟨rn, v, fc, d⟩] }

/-- Phase 1 of `calculate_and_log_batch`: scan the items in order, fetch
each one's `inventory_qty`, and stop at the first shortfall.  `none` models
the crash on a missing ingredient row; `some none` means every item is
sufficient; `some (some (name, needed, available))` is the first shortfall,
built from the item's own name field as in the Python f-string. -/
def checkInventory (db : DB) : List ScaledItem → Option (Option (String × ℚ × ℚ))
  | [] => some none
  | item :: rest =>
    match findIngredient db item.id with
    | none => none
    | some g =>
      if g.inventory_qty < item.quantity then
        some (some (item.name, item.quantity, g.inventory_qty))
      else
        checkInventory db rest

/-- Phase 2 of `calculate_and_log_batch`: decrement stock for every item
via `update_inventory_qty` with the negated quantity. -/
def applyConsumption (db : DB) : List ScaledItem → DB
  | [] => db
  | item :: rest => applyConsumption (update_inventory_qty db item.id (-item.quantity)) rest

/-- Outcome of `services.calculate_and_log_batch`: connection failure,
untyped crash on a missing ingredient row, the insufficient-inventory
failure message content `(name, needed, available)`, or success. -/
inductive CommitResult where
  | connFailed : CommitResult
  | crash : CommitResult
  | insufficient : String → ℚ → ℚ → CommitResult
  | ok : CommitResult
  deriving DecidableEq

/-- services.py `calculate_and_log_batch(recipe_name, volume, final_cost,
ingredient_list)`: validate stock for every item, then decrement all and
append one `Batch_Log` row.  The returned `Option DB` is the store after
the call (`none` when no connection was obtained). -/
def calculate_and_log_batch (conn : Option DB) (rn : String) (v fc : ℚ) (d : String)
    (items : List ScaledItem) : CommitResult × Option DB :=
  match conn with
  | none => (CommitResult.connFailed, none)
  | some db =>
    match checkInventory db items with
    | none => (CommitResult.crash, some db)
    | some (some (n, needed, avail)) => (CommitResult.insufficient n needed avail, some db)
    | some none =>
      (CommitResult.ok, some (log_batch (applyConsumption db items) rn v fc d))

/-- The cost contribution of one scaled item at the current gateway prices
(`0` for a missing row; only used under a hypothesis that the row exists). -/
def itemCost (db : DB) (it : ScaledItem) : ℚ :=
  match findIngredient db it.id with
  | some g => g.cost * it.quantity
  | none => 0

/-- The storage invariant: every ingredient's on-hand quantity is
non-negative. -/
def nonnegInv (db : DB) : Prop :=
  ∀ g ∈ db.ingredients, 0 ≤ g.inventory_qty

/-- Two-decimal rounding: the GUI formats the marked-up cost with the
f-string `:.2f` into the output label and later parses it back with
`float(...)`, so the committed cost is the price rounded to cents. -/
def round2 (q : ℚ) : ℚ := (⌊100 * q + 1 / 2⌋ : ℚ) / 100

/-- The costing state the Scaling tab holds after a click of
`Scale & Estimate Cost`: the raw total, the marked-up price of gui.py line
`cost_with_markup = total_cost * services.COST_MARKUP`, and the value
recoverable from the two-decimal output label. -/
structure QuoteState where
  total_cost : ℚ
  cost_with_markup : ℚ
  displayed_cost : ℚ
  deriving DecidableEq

/-- gui.py `BreweryApp._scale_and_cost` cost pipeline: total cost of the
scaled items, markup, and the displayed (two-decimal) price. -/
def scale_and_cost (db : DB) (items : List ScaledItem) : Option QuoteState :=
  (calculate_recipe_cost (some db) items).map (fun total =>
    ⟨total, total * COST_MARKUP, round2 (total * COST_MARKUP)⟩)

/-- gui.py `BreweryApp._log_batch`: parses the displayed cost back out of
the output label and commits the batch with it as `final_cost`. -/
def log_batch_click (db : DB) (q : QuoteState) (rn : String) (v : ℚ) (d : String)
    (items : List ScaledItem) : CommitResult × Option DB :=
  calculate_and_log_batch (some db) rn v q.displayed_cost d items

/-- Concrete ingredient row used by witnesses. -/
def ingA : Ingredient := ⟨1, "Pale Malt", "Fermentable", 2, 3, "lb", 10⟩

/-- Concrete ingredient row used by witnesses. -/
def ingB : Ingredient := ⟨2, "Cascade", "Hop", 1, 5, "oz", 3⟩

/-- Concrete ingredient row with a repeating-decimal unit cost. -/
def ingC : Ingredient := ⟨3, "Honey", "Other", 1 / 3, 0, "lb", 100⟩

/-- Concrete store used by witnesses. -/
def dbW : DB := ⟨[ingA, ingB], [(1, 1, 4), (1, 2, 1)], []⟩

/-- Concrete store for the markup round-trip analysis. -/
def dbC : DB := ⟨[ingC], [], []⟩

/-- Empty store: every ingredient lookup misses. -/
def dbE : DB := ⟨[], [], []⟩

/-- Scaled item naming ingredient 1 with a satisfiable requirement. -/
def itW1 : ScaledItem := ⟨1, "Pale Malt", 4, "lb"⟩

/-- Scaled item naming ingredient 2 with requirement 5 against stock 3. -/
def itW2 : ScaledItem := ⟨2, "Cascade", 5, "oz"⟩

/-- Scaled item naming ingredient 2 with a satisfiable requirement. -/
def itW3 : ScaledItem := ⟨2, "Cascade", 2, "oz"⟩

/-- Scaled item naming ingredient 3, quantity 1. -/
def itC : ScaledItem := ⟨3, "Honey", 1, "lb"⟩

/-- Scaled item referencing an id absent from every witness store. -/
def itGhost : ScaledItem := ⟨9, "Ghost", 1, "lb"⟩

/-! ### Helper lemmas about the embedded operations -/

/-- The clamped stock update never changes a row's id. -/
theorem updOne_id (iid : Nat) (delta : ℚ) (i : Ingredient) :
    (updOne iid delta i).id = i.id := by
  unfold updOne
  split <;> rfl

/-- Looking up any id after `update_inventory_qty` finds the updated image
of the row the lookup would have found before. -/
theorem find_upd (l : List Ingredient) (iid j : Nat) (delta : ℚ) :
    (l.map (updOne iid delta)).find? (fun i => i.id == j) =
      (l.find? (fun i => i.id == j)).map (updOne iid delta) := by
  induction l with
  | nil => rfl
  | cons a l ih =>
    simp only [List.map_cons, List.find?_cons, updOne_id]
    cases h : (a.id == j) with
    | true => rfl
    | false => exact ih

/-- `findIngredient` after `update_inventory_qty`, stated via `updOne`. -/
theorem findIngredient_update (db : DB) (iid : Nat) (delta : ℚ) (j : Nat) :
    findIngredient (update_inventory_qty db iid delta) j =
      (findIngredient db j).map (updOne iid delta) :=
  find_upd db.ingredients iid j delta

/-- A found ingredient row carries the id it was looked up by. -/
theorem findIngredient_id {db : DB} {j : Nat} {g : Ingredient}
    (h : findIngredient db j = some g) : g.id = j := by
  simpa using List.find?_some h

/-- Updating the looked-up id rewrites exactly that row's stock, clamped. -/
theorem findIngredient_update_self (db : DB) (iid : Nat) (delta : ℚ) (g : Ingredient)
    (hg : findIngredient db iid = some g) :
    findIngredient (update_inventory_qty db iid delta) iid =
      some { g with inventory_qty := max 0 (g.inventory_qty + delta) } := by
  rw [findIngredient_update, hg]
  simp [updOne, findIngredient_id hg]

/-- Updating a different id leaves a lookup unchanged. -/
theorem findIngredient_update_ne (db : DB) (iid j : Nat) (delta : ℚ) (h : j ≠ iid) :
    findIngredient (update_inventory_qty db iid delta) j = findIngredient db j := by
  rw [findIngredient_update]
  cases hg : findIngredient db j with
  | none => rfl
  | some g => simp [updOne, findIngredient_id hg, h]

/-- Stock updates do not touch the batch log. -/
theorem applyConsumption_batch_log (items : List ScaledItem) :
    ∀ db : DB, (applyConsumption db items).batch_log = db.batch_log := by
  induction items with
  | nil => intro db; rfl
  | cons x rest ih => intro db; exact ih _

/-- Appending a batch record does not touch the ingredient rows. -/
theorem findIngredient_log_batch (db : DB) (rn : String) (v fc : ℚ) (d : String) (j : Nat) :
    findIngredient (log_batch db rn v fc d) j = findIngredient db j := rfl

/-- Consuming items whose ids avoid `j` leaves the lookup of `j` unchanged. -/
theorem applyConsumption_find_notmem (items : List ScaledItem) :
    ∀ (db : DB) (j : Nat), j ∉ items.map ScaledItem.id →
      findIngredient (applyConsumption db items) j = findIngredient db j := by
  induction items with
  | nil => intro db j _; rfl
  | cons x rest ih =>
    intro db j hj
    rw [List.map_cons, List.mem_cons] at hj
    push_neg at hj
    show findIngredient (applyConsumption (update_inventory_qty db x.id (-x.quantity)) rest) j = _
    rw [ih _ j hj.2, findIngredient_update_ne db x.id j _ hj.1]

/-- Under distinct ids and sufficient stock for every item, phase 2
decrements each involved row by exactly its required quantity. -/
theorem applyConsumption_find_mem (items : List ScaledItem) :
    ∀ db : DB, (items.map ScaledItem.id).Nodup →
      (∀ it ∈ items, ∃ g, findIngredient db it.id = some g ∧ it.quantity ≤ g.inventory_qty) →
      ∀ it ∈ items, ∀ g, findIngredient db it.id = some g →
        findIngredient (applyConsumption db items) it.id =
          some { g with inventory_qty := g.inventory_qty - it.quantity } := by
  induction items with
  | nil => intro db _ _ it hit; exact absurd hit (List.not_mem_nil it)
  | cons x rest ih =>
    intro db hnd hsuff it hit g hg
    rw [List.map_cons, List.nodup_cons] at hnd
    rcases List.mem_cons.mp hit with heq | hmem
    · subst heq
      show findIngredient (applyConsumption (update_inventory_qty db it.id (-it.quantity)) rest) it.id = _
      rw [applyConsumption_find_notmem rest _ it.id hnd.1,
        findIngredient_update_self db it.id (-it.quantity) g hg]
      have hle : it.quantity ≤ g.inventory_qty := by
        obtain ⟨g2, hg2, hle2⟩ := hsuff it (List.mem_cons_self it rest)
        rw [hg] at hg2
        cases hg2
        exact hle2
      have hmax : max 0 (g.inventory_qty + -it.quantity) = g.inventory_qty - it.quantity := by
        rw [max_eq_right (by linarith)]
        ring
      rw [hmax]
    · have hne : it.id ≠ x.id := by
        intro hcontr
        exact hnd.1 (hcontr ▸ List.mem_map.mpr ⟨it, hmem, rfl⟩)
      show findIngredient (applyConsumption (update_inventory_qty db x.id (-x.quantity)) rest) it.id = _
      refine ih (update_inventory_qty db x.id (-x.quantity)) hnd.2 ?_ it hmem g ?_
      · intro y hy
        obtain ⟨g2, hg2, hle2⟩ := hsuff y (List.mem_cons_of_mem x hy)
        have hyx : y.id ≠ x.id := by
          intro hcontr
          exact hnd.1 (hcontr ▸ List.mem_map.mpr ⟨y, hy, rfl⟩)
        exact ⟨g2, by rw [findIngredient_update_ne db x.id y.id _ hyx]; exact hg2, hle2⟩
      · rw [findIngredient_update_ne db x.id it.id _ hne]
        exact hg

/-- Phase 1 passes when every item's requirement is covered by stock. -/
theorem checkInventory_all_ok (db : DB) (items : List ScaledItem)
    (hsuff : ∀ it ∈ items, ∃ g, findIngredient db it.id = some g ∧ it.quantity ≤ g.inventory_qty) :
    checkInventory db items = some none := by
  induction items with
  | nil => rfl
  | cons x rest ih =>
    obtain ⟨g, hg, hle⟩ := hsuff x (List.mem_cons_self x rest)
    have hnlt : ¬ g.inventory_qty < x.quantity := not_lt.mpr hle
    simp only [checkInventory, hg, if_neg hnlt]
    exact ih (fun y hy => hsuff y (List.mem_cons_of_mem x hy))

/-- Phase 1 stops at the first short item and reports its name, the
required quantity, and the fetched stock. -/
theorem checkInventory_first_fail (db : DB) (pre : List ScaledItem) :
    ∀ (x : ScaledItem) (post : List ScaledItem) (g : Ingredient),
      (∀ y ∈ pre, ∃ h, findIngredient db y.id = some h ∧ y.quantity ≤ h.inventory_qty) →
      findIngredient db x.id = some g → g.inventory_qty < x.quantity →
      checkInventory db (pre ++ x :: post) = some (some (x.name, x.quantity, g.inventory_qty)) := by
  induction pre with
  | nil =>
    intro x post g _ hg hlt
    simp only [List.nil_append, checkInventory, hg, if_pos hlt]
  | cons a pre ih =>
    intro x post g hpre hg hlt
    obtain ⟨h, hh, hle⟩ := hpre a (List.mem_cons_self a pre)
    have hnlt : ¬ h.inventory_qty < a.quantity := not_lt.mpr hle
    simp only [List.cons_append, checkInventory, hh, if_neg hnlt]
    exact ih x post g (fun y hy => hpre y (List.mem_cons_of_mem a hy)) hg hlt

/-- Phase 1 never crashes when every referenced ingredient id resolves. -/
theorem checkInventory_ne_none (db : DB) (items : List ScaledItem)
    (hids : ∀ it ∈ items, (findIngredient db it.id).isSome) :
    checkInventory db items ≠ none := by
  induction items with
  | nil => simp [checkInventory]
  | cons x rest ih =>
    obtain ⟨g, hg⟩ := Option.isSome_iff_exists.mp (hids x (List.mem_cons_self x rest))
    by_cases hlt : g.inventory_qty < x.quantity
    · simp [checkInventory, hg, if_pos hlt]
    · simp only [checkInventory, hg, if_neg hlt]
      exact ih (fun y hy => hids y (List.mem_cons_of_mem x hy))

/-- The recursive cost equals the sum of per-item costs at current prices,
when every referenced ingredient id resolves. -/
theorem calculate_recipe_cost_sum (db : DB) (items : List ScaledItem)
    (hids : ∀ it ∈ items, (findIngredient db it.id).isSome) :
    calculate_recipe_cost (some db) items = some ((items.map (itemCost db)).sum) := by
  induction items with
  | nil => rfl
  | cons x rest ih =>
    obtain ⟨g, hg⟩ := Option.isSome_iff_exists.mp (hids x (List.mem_cons_self x rest))
    have ih2 := ih (fun y hy => hids y (List.mem_cons_of_mem x hy))
    simp [calculate_recipe_cost, hg, ih2, itemCost]

/-- The clamped stock update preserves non-negativity of every row. -/
theorem nonnegInv_update (db : DB) (iid : Nat) (delta : ℚ) (hinv : nonnegInv db) :
    nonnegInv (update_inventory_qty db iid delta) := by
  intro g hg
  obtain ⟨a, ha, rfl⟩ := List.mem_map.mp hg
  unfold updOne
  split
  · exact le_max_left 0 _
  · exact hinv a ha

/-- Phase 2 preserves non-negativity of every row. -/
theorem nonnegInv_applyConsumption (items : List ScaledItem) :
    ∀ db : DB, nonnegInv db → nonnegInv (applyConsumption db items) := by
  induction items with
  | nil => intro db h; exact h
  | cons x rest ih => intro db h; exact ih _ (nonnegInv_update db x.id (-x.quantity) h)

/-- A successful commit produces exactly the store with one appended log
record over the consumed stock. -/
theorem commit_ok_state (db : DB) (rn : String) (v fc : ℚ) (d : String)
    (items : List ScaledItem) (db2 : DB)
    (h : calculate_and_log_batch (some db) rn v fc d items = (CommitResult.ok, some db2)) :
    db2 = log_batch (applyConsumption db items) rn v fc d := by
  simp only [calculate_and_log_batch] at h
  cases hchk : checkInventory db items with
  | none => rw [hchk] at h; exact absurd (congrArg Prod.fst h) (by simp)
  | some o =>
    cases o with
    | none =>
      rw [hchk] at h
      exact (Option.some_inj.mp (congrArg Prod.snd h)).symm
    | some t =>
      rw [hchk] at h
      exact absurd (congrArg Prod.fst h) (by simp)

/-- Commits with an unchanged-store outcome keep the invariant; successful
commits preserve it through the clamped decrements. -/
theorem nonnegInv_commit (db : DB) (rn : String) (v fc : ℚ) (d : String)
    (items : List ScaledItem) (r : CommitResult) (db2 : DB)
    (hcall : calculate_and_log_batch (some db) rn v fc d items = (r, some db2))
    (hinv : nonnegInv db) : nonnegInv db2 := by
  simp only [calculate_and_log_batch] at hcall
  cases hchk : checkInventory db items with
  | none =>
    rw [hchk] at hcall
    injection hcall with h1 h2
    injection h2 with h3
    exact h3 ▸ hinv
  | some o =>
    cases o with
    | none =>
      rw [hchk] at hcall
      injection hcall with h1 h2
      injection h2 with h3
      rw [← h3]
      exact nonnegInv_applyConsumption items db hinv
    | some t =>
      rw [hchk] at hcall
      obtain ⟨n, needed, avail⟩ := t
      injection hcall with h1 h2
      injection h2 with h3
      exact h3 ▸ hinv

/-! ### Claim theorems -/

/-- C1: a commit whose item list contains, after a prefix of items whose
requirements are covered by stock, an item requiring strictly more than
its fetched on-hand quantity, returns the insufficient-inventory failure
naming that first failing item together with the quantity needed and the
quantity available, and returns the store unchanged: no stock is
decremented and no batch-log record is appended. -/
theorem commit_batch_insufficient_no_mutation
    (db : DB) (pre post : List ScaledItem) (x : ScaledItem) (g : Ingredient)
    (rn : String) (v fc : ℚ) (d : String)
    (hpre : ∀ y ∈ pre, ∃ h, findIngredient db y.id = some h ∧ y.quantity ≤ h.inventory_qty)
    (hg : findIngredient db x.id = some g)
    (hlt : g.inventory_qty < x.quantity) :
    calculate_and_log_batch (some db) rn v fc d (pre ++ x :: post) =
      (CommitResult.insufficient x.name x.quantity g.inventory_qty, some db) := by
  simp only [calculate_and_log_batch,
    checkInventory_first_fail db pre x post g hpre hg hlt]

/-- C1 witness: a concrete commit with one sufficient item followed by one
short item fails naming the short item and leaves the store unchanged. -/
theorem commit_batch_insufficient_no_mutation_witness :
    calculate_and_log_batch (some dbW) "IPA" 10 100 "2024-01-01" [itW1, itW2] =
      (CommitResult.insufficient "Cascade" 5 3, some dbW) :=
  commit_batch_insufficient_no_mutation dbW [itW1] [] itW2 ingB "IPA" 10 100 "2024-01-01"
    (by
      intro y hy
      rw [List.mem_singleton] at hy
      subst hy
      exact ⟨ingA, rfl, by norm_num [itW1, ingA]⟩)
    rfl
    (by norm_num [ingB, itW2])

/-- C2: a commit in which every item's requirement is at most the fetched
on-hand quantity (ids pairwise distinct, as produced by a recipe
composition) succeeds, decrements each involved ingredient's stock by
exactly its required quantity, and appends exactly one batch-log record
with the supplied recipe name, volume, and final cost. -/
theorem commit_batch_success_spec
    (db : DB) (items : List ScaledItem) (rn : String) (v fc : ℚ) (d : String)
    (hnd : (items.map ScaledItem.id).Nodup)
    (hsuff : ∀ it ∈ items, ∃ g, findIngredient db it.id = some g ∧ it.quantity ≤ g.inventory_qty) :
    ∃ db2,
      calculate_and_log_batch (some db) rn v fc d items = (CommitResult.ok, some db2) ∧
      db2.batch_log = db.batch_log ++ [⟨rn, v, fc, d⟩] ∧
      ∀ it ∈ items, ∀ g, findIngredient db it.id = some g →
        findIngredient db2 it.id = some { g with inventory_qty := g.inventory_qty - it.quantity } := by
  refine ⟨log_batch (applyConsumption db items) rn v fc d, ?_, ?_, ?_⟩
  · simp only [calculate_and_log_batch, checkInventory_all_ok db items hsuff]
  · show (applyConsumption db items).batch_log ++ [_] = _
    rw [applyConsumption_batch_log]
  · intro it hit g hg
    rw [findIngredient_log_batch]
    exact applyConsumption_find_mem items db hnd hsuff it hit g hg

/-- C2 witness: a concrete commit with two sufficient items succeeds,
appends the one expected record, and decrements both stocks exactly. -/
theorem commit_batch_success_spec_witness :
    ∃ db2,
      calculate_and_log_batch (some dbW) "Stout" 2 50 "2024-02-02" [itW1, itW3] =
        (CommitResult.ok, some db2) ∧
      db2.batch_log = dbW.batch_log ++ [⟨"Stout", 2, 50, "2024-02-02"⟩] ∧
      ∀ it ∈ [itW1, itW3], ∀ g, findIngredient dbW it.id = some g →
        findIngredient db2 it.id = some { g with inventory_qty := g.inventory_qty - it.quantity } :=
  commit_batch_success_spec dbW [itW1, itW3] "Stout" 2 50 "2024-02-02"
    (by decide)
    (by
      intro it hit
      rcases List.mem_cons.mp hit with rfl | hit2
      · exact ⟨ingA, rfl, by norm_num [itW1, ingA]⟩
      · rcases List.mem_cons.mp hit2 with rfl | hit3
        · exact ⟨ingB, rfl, by norm_num [itW3, ingB]⟩
        · exact absurd hit3 (List.not_mem_nil it))

/-- The per-ingredient scaling loop resolves every row and multiplies every
base quantity by the scale factor, preserving composition order. -/
theorem scaleItems_spec (db : DB) (f : ℚ) (comp : List (Nat × ℚ))
    (hids : ∀ p ∈ comp, (findIngredient db p.1).isSome) :
    ∃ items, scaleItems db f comp = some items ∧
      List.Forall₂ (fun (p : Nat × ℚ) (it : ScaledItem) =>
        ∃ g, findIngredient db p.1 = some g ∧ it.id = p.1 ∧ it.name = g.name ∧
          it.unit = g.unit ∧ it.quantity = p.2 * f) comp items := by
  induction comp with
  | nil => exact ⟨[], rfl, List.Forall₂.nil⟩
  | cons p comp ih =>
    obtain ⟨iid, q⟩ := p
    obtain ⟨g, hg⟩ := Option.isSome_iff_exists.mp (hids (iid, q) (List.mem_cons_self _ comp))
    obtain ⟨tail, htail, hfa⟩ := ih (fun r hr => hids r (List.mem_cons_of_mem _ hr))
    refine ⟨⟨iid, g.name, q * f, g.unit⟩ :: tail, ?_, ?_⟩
    · simp only [scaleItems, hg, htail]
    · exact List.Forall₂.cons ⟨g, hg, rfl, rfl, rfl, rfl⟩ hfa

/-- C3: for volumes both strictly above the minimum threshold, scaling
returns the factor `target / base` and, for every composition pair, an
output item with the pair's ingredient id, the name and unit resolved from
the store at scale time, and quantity `base_qty * factor`; the operation
returns no modified store (it only reads). -/
theorem scale_recipe_spec (db : DB) (rid : Nat) (bv tv : ℚ)
    (hb : MIN_VOLUME_BBL < bv) (ht : MIN_VOLUME_BBL < tv)
    (hids : ∀ p ∈ getComposition db rid, (findIngredient db p.1).isSome) :
    ∃ items, scale_recipe (some db) rid bv tv = ScaleResult.ok items (tv / bv) ∧
      List.Forall₂ (fun (p : Nat × ℚ) (it : ScaledItem) =>
        ∃ g, findIngredient db p.1 = some g ∧ it.id = p.1 ∧ it.name = g.name ∧
          it.unit = g.unit ∧ it.quantity = p.2 * (tv / bv))
        (getComposition db rid) items := by
  obtain ⟨items, hsc, hfa⟩ := scaleItems_spec db (tv / bv) (getComposition db rid) hids
  refine ⟨items, ?_, hfa⟩
  have hcond : ¬ (bv ≤ MIN_VOLUME_BBL ∨ tv ≤ MIN_VOLUME_BBL) := by
    push_neg
    exact ⟨hb, ht⟩
  simp only [scale_recipe, if_neg hcond, hsc]

/-- C3 witness: scaling the concrete recipe 1 from volume 1 to volume 2. -/
theorem scale_recipe_spec_witness :
    ∃ items, scale_recipe (some dbW) 1 1 2 = ScaleResult.ok items (2 / 1) ∧
      List.Forall₂ (fun (p : Nat × ℚ) (it : ScaledItem) =>
        ∃ g, findIngredient dbW p.1 = some g ∧ it.id = p.1 ∧ it.name = g.name ∧
          it.unit = g.unit ∧ it.quantity = p.2 * (2 / 1))
        (getComposition dbW 1) items :=
  scale_recipe_spec dbW 1 1 2 (by norm_num [MIN_VOLUME_BBL]) (by norm_num [MIN_VOLUME_BBL])
    (by decide)

/-- C4: scaling raises the invalid-volume error exactly when the base or
the target volume is at or below the configured minimum, for every store
state including an unavailable one (the guard runs before any gateway
access, and the error is independent of the store). -/
theorem scale_recipe_volume_guard (conn : Option DB) (rid : Nat) (bv tv : ℚ) :
    scale_recipe conn rid bv tv = ScaleResult.invalidVolume ↔
      bv ≤ MIN_VOLUME_BBL ∨ tv ≤ MIN_VOLUME_BBL := by
  by_cases h : bv ≤ MIN_VOLUME_BBL ∨ tv ≤ MIN_VOLUME_BBL
  · simp only [scale_recipe, if_pos h]
    exact iff_of_true trivial h
  · simp only [scale_recipe, if_neg h]
    refine iff_of_false ?_ h
    cases conn with
    | none => simp
    | some db =>
      dsimp only
      cases hsc : scaleItems db (tv / bv) (getComposition db rid) with
      | none => simp
      | some items => simp

/-- C5: the recursive cost of the empty list is `0.0`; for a list whose
ingredient ids all resolve, the cost equals the sum over all items of the
current unit cost times the item quantity, and any permutation of the
items yields the same cost. -/
theorem total_cost_spec (db : DB) (items itemsP : List ScaledItem)
    (hids : ∀ it ∈ items, (findIngredient db it.id).isSome)
    (hperm : items.Perm itemsP) :
    calculate_recipe_cost (some db) ([] : List ScaledItem) = some 0 ∧
    calculate_recipe_cost (some db) items = some ((items.map (itemCost db)).sum) ∧
    calculate_recipe_cost (some db) itemsP = calculate_recipe_cost (some db) items := by
  refine ⟨rfl, calculate_recipe_cost_sum db items hids, ?_⟩
  have hidsP : ∀ it ∈ itemsP, (findIngredient db it.id).isSome :=
    fun it hit => hids it (hperm.mem_iff.mpr hit)
  rw [calculate_recipe_cost_sum db items hids, calculate_recipe_cost_sum db itemsP hidsP]
  exact congrArg some ((hperm.map (itemCost db)).sum_eq).symm

/-- C5 witness: concrete two-item list and its reversal. -/
theorem total_cost_spec_witness :
    calculate_recipe_cost (some dbW) ([] : List ScaledItem) = some 0 ∧
    calculate_recipe_cost (some dbW) [itW1, itW3] =
      some (([itW1, itW3].map (itemCost dbW)).sum) ∧
    calculate_recipe_cost (some dbW) [itW3, itW1] =
      calculate_recipe_cost (some dbW) [itW1, itW3] :=
  total_cost_spec dbW [itW1, itW3] [itW3, itW1] (by decide) (by decide)

/-- C6: the stock adjustment sets the row's on-hand quantity to
`max 0 (old + delta)`; a negative delta exceeding the current stock in
magnitude yields exactly `0`; the non-negativity invariant is preserved by
the adjustment and by every commit outcome. -/
theorem adjust_stock_spec (db : DB) (iid : Nat) (delta : ℚ) (g : Ingredient)
    (hg : findIngredient db iid = some g) (hinv : nonnegInv db) :
    findIngredient (update_inventory_qty db iid delta) iid =
      some { g with inventory_qty := max 0 (g.inventory_qty + delta) } ∧
    (g.inventory_qty + delta < 0 →
      findIngredient (update_inventory_qty db iid delta) iid =
        some { g with inventory_qty := 0 }) ∧
    nonnegInv (update_inventory_qty db iid delta) ∧
    ∀ rn v fc d items r db2,
      calculate_and_log_batch (some db) rn v fc d items = (r, some db2) → nonnegInv db2 := by
  refine ⟨findIngredient_update_self db iid delta g hg, ?_,
    nonnegInv_update db iid delta hinv, ?_⟩
  · intro hneg
    rw [findIngredient_update_self db iid delta g hg,
      max_eq_left (le_of_lt hneg)]
  · intro rn v fc d items r db2 hcall
    exact nonnegInv_commit db rn v fc d items r db2 hcall hinv

/-- C6 witness: draining ingredient 2 (stock 3) by 5 floors it at 0. -/
theorem adjust_stock_spec_witness :
    findIngredient (update_inventory_qty dbW 2 (-5)) 2 =
      some { ingB with inventory_qty := max 0 (ingB.inventory_qty + -5) } ∧
    (ingB.inventory_qty + -5 < 0 →
      findIngredient (update_inventory_qty dbW 2 (-5)) 2 =
        some { ingB with inventory_qty := 0 }) ∧
    nonnegInv (update_inventory_qty dbW 2 (-5)) ∧
    ∀ rn v fc d items r db2,
      calculate_and_log_batch (some dbW) rn v fc d items = (r, some db2) → nonnegInv db2 :=
  adjust_stock_spec dbW 2 (-5) ingB rfl
    (by
      intro g hg
      rcases List.mem_cons.mp hg with rfl | hg2
      · norm_num [ingA]
      · rcases List.mem_cons.mp hg2 with rfl | hg3
        · norm_num [ingB]
        · exact absurd hg3 (List.not_mem_nil g))

/-- Concrete floor value used by the markup round-trip analysis. -/
theorem floor_233_div_6 : (⌊(233 / 6 : ℚ)⌋ : ℤ) = 38 := by
  rw [Int.floor_eq_iff]
  norm_num

/-- The scaling-tab cost pipeline on the concrete store `dbC`: raw cost
`1/3`, marked-up price `23/60`, displayed (two-decimal) price `19/50`. -/
theorem scale_and_cost_dbC : scale_and_cost dbC [itC] = some ⟨1/3, 23/60, 19/50⟩ := by
  have htot : calculate_recipe_cost (some dbC) [itC] = some (1/3) := by
    show some ((1 : ℚ)/3 * 1 + 0) = some (1/3)
    norm_num
  have hmark : (1/3 : ℚ) * COST_MARKUP = 23/60 := by norm_num [COST_MARKUP]
  have hround : round2 (23/60 : ℚ) = 19/50 := by
    unfold round2
    rw [show (100 * (23/60 : ℚ) + 1/2) = 233/6 by norm_num, floor_233_div_6]
    norm_num
  simp only [scale_and_cost]
  rw [htot]
  simp only [Option.map_some']
  rw [hmark, hround]

/-- C7 counterexample: with ingredient unit cost `1/3` and quantity 1, the
marked-up price is `23/60`, but the batch-log record written by the GUI
log click carries `19/50` — the price after the two-decimal display
round-trip — which differs from the marked-up price. -/
theorem markup_logged_counterexample :
    scale_and_cost dbC [itC] = some ⟨1/3, 23/60, 19/50⟩ ∧
    ((log_batch_click dbC ⟨1/3, 23/60, 19/50⟩ "Mead" 1 "2024-03-03" [itC]).2.map
        DB.batch_log) = some [⟨"Mead", 1, 19/50, "2024-03-03"⟩] ∧
    (19/50 : ℚ) ≠ (1/3 : ℚ) * COST_MARKUP := by
  refine ⟨scale_and_cost_dbC, ?_, by norm_num [COST_MARKUP]⟩
  have hchk : checkInventory dbC [itC] = some none := rfl
  show ((calculate_and_log_batch (some dbC) "Mead" 1 (19/50) "2024-03-03" [itC]).2.map
      DB.batch_log) = _
  simp only [calculate_and_log_batch, hchk, Option.map_some']
  refine congrArg some ?_
  show (applyConsumption dbC [itC]).batch_log ++ [_] = _
  rw [applyConsumption_batch_log]
  rfl

/-- C7 amended: the quoted price equals `total_cost * 1.15` exactly, and a
successful GUI log click records as `final_cost` the marked-up price
rounded to two decimals by the display-string round-trip (equal to the
exact marked-up price only when that price has at most two decimals). -/
theorem markup_logged_spec (db : DB) (items : List ScaledItem) (q : QuoteState)
    (rn : String) (v : ℚ) (d : String) (db2 : DB)
    (hq : scale_and_cost db items = some q)
    (hlog : log_batch_click db q rn v d items = (CommitResult.ok, some db2)) :
    q.cost_with_markup = q.total_cost * COST_MARKUP ∧
    q.displayed_cost = round2 (q.total_cost * COST_MARKUP) ∧
    db2.batch_log = db.batch_log ++ [⟨rn, v, round2 (q.total_cost * COST_MARKUP), d⟩] := by
  obtain ⟨t, ht, hqe⟩ : ∃ t, calculate_recipe_cost (some db) items = some t ∧
      q = ⟨t, t * COST_MARKUP, round2 (t * COST_MARKUP)⟩ := by
    cases hc : calculate_recipe_cost (some db) items with
    | none =>
      rw [scale_and_cost, hc] at hq
      exact absurd hq (by simp)
    | some t =>
      rw [scale_and_cost, hc] at hq
      simp only [Option.map_some'] at hq
      exact ⟨t, rfl, (Option.some_inj.mp hq).symm⟩
  subst hqe
  refine ⟨rfl, rfl, ?_⟩
  have hstate := commit_ok_state db rn v (round2 (t * COST_MARKUP)) d items db2 hlog
  rw [hstate]
  show (applyConsumption db items).batch_log ++ [_] = _
  rw [applyConsumption_batch_log]

/-- C7 witness: the amended statement at the concrete store `dbC`. -/
theorem markup_logged_spec_witness :
    (23/60 : ℚ) = (1/3 : ℚ) * COST_MARKUP ∧
    (19/50 : ℚ) = round2 ((1/3 : ℚ) * COST_MARKUP) ∧
    (log_batch (applyConsumption dbC [itC]) "Mead" 1 (19/50) "2024-03-03").batch_log =
      dbC.batch_log ++ [⟨"Mead", 1, round2 ((1/3 : ℚ) * COST_MARKUP), "2024-03-03"⟩] :=
  markup_logged_spec dbC [itC] ⟨1/3, 23/60, 19/50⟩ "Mead" 1 "2024-03-03"
    (log_batch (applyConsumption dbC [itC]) "Mead" 1 (19/50) "2024-03-03")
    scale_and_cost_dbC
    rfl

/-- C8 counterexample: with no connection obtainable, `scale_recipe`
returns the ordinary value `([], 0)` and `calculate_recipe_cost` returns
`0.0`; neither surfaces a connectivity error. -/
theorem conn_failure_counterexample :
    scale_recipe none 1 1 2 = ScaleResult.ok [] 0 ∧
    calculate_recipe_cost none [itW1] = some 0 := by
  constructor
  · norm_num [scale_recipe, MIN_VOLUME_BBL]
  · rfl

/-- C8 amended: when the gateway cannot be opened, only the batch commit
surfaces a connectivity failure (with no state change); `scale_recipe`
silently returns the empty list with factor `0` and
`calculate_recipe_cost` silently returns `0.0`, both as ordinary results,
with no state mutated. -/
theorem conn_failure_spec (rid : Nat) (bv tv : ℚ) (items : List ScaledItem)
    (rn : String) (v fc : ℚ) (d : String)
    (hb : MIN_VOLUME_BBL < bv) (ht : MIN_VOLUME_BBL < tv) :
    scale_recipe none rid bv tv = ScaleResult.ok [] 0 ∧
    calculate_recipe_cost none items = some 0 ∧
    calculate_and_log_batch none rn v fc d items = (CommitResult.connFailed, none) := by
  refine ⟨?_, ?_, rfl⟩
  · have hcond : ¬ (bv ≤ MIN_VOLUME_BBL ∨ tv ≤ MIN_VOLUME_BBL) := by
      push_neg
      exact ⟨hb, ht⟩
    simp only [scale_recipe, if_neg hcond]
  · cases items with
    | nil => rfl
    | cons x rest => rfl

/-- C8 witness: the amended statement at concrete inputs. -/
theorem conn_failure_spec_witness :
    scale_recipe none 1 1 2 = ScaleResult.ok [] 0 ∧
    calculate_recipe_cost none [itW1] = some 0 ∧
    calculate_and_log_batch none "X" 1 1 "2024" [itW1] = (CommitResult.connFailed, none) :=
  conn_failure_spec 1 1 2 [itW1] "X" 1 1 "2024"
    (by norm_num [MIN_VOLUME_BBL]) (by norm_num [MIN_VOLUME_BBL])

/-- C9: when every ingredient id referenced by the input list exists in
the store, the row lookup never fails: the recursive cost returns a value
and the commit never crashes; for an input referencing an absent id the
subscript of the fetched row dereferences a missing value and both
operations fail with the untyped crash outcome instead of a typed
failure. -/
theorem missing_ingredient_precondition (db : DB) (items : List ScaledItem)
    (hids : ∀ it ∈ items, (findIngredient db it.id).isSome) :
    (calculate_recipe_cost (some db) items).isSome ∧
    (∀ rn v fc d, (calculate_and_log_batch (some db) rn v fc d items).1 ≠
      CommitResult.crash) ∧
    calculate_recipe_cost (some dbE) [itGhost] = none ∧
    (calculate_and_log_batch (some dbE) "Brew" 1 1 "2024" [itGhost]).1 =
      CommitResult.crash := by
  refine ⟨?_, ?_, rfl, rfl⟩
  · rw [calculate_recipe_cost_sum db items hids]
    rfl
  · intro rn v fc d
    simp only [calculate_and_log_batch]
    cases hchk : checkInventory db items with
    | none => exact absurd hchk (checkInventory_ne_none db items hids)
    | some o =>
      cases o with
      | none => simp
      | some t =>
        obtain ⟨n, needed, avail⟩ := t
        simp

/-- C9 witness: the precondition discharged on the concrete store. -/
theorem missing_ingredient_precondition_witness :
    (calculate_recipe_cost (some dbW) [itW1, itW3]).isSome ∧
    (∀ rn v fc d, (calculate_and_log_batch (some dbW) rn v fc d [itW1, itW3]).1 ≠
      CommitResult.crash) ∧
    calculate_recipe_cost (some dbE) [itGhost] = none ∧
    (calculate_and_log_batch (some dbE) "Brew" 1 1 "2024" [itGhost]).1 =
      CommitResult.crash :=
  missing_ingredient_precondition dbW [itW1, itW3] (by decide)

/-- C10: the recursion of `calculate_recipe_cost` terminates on every
finite list: each call recurses only on the tail, so a fuel supply equal
to the list length always suffices and the fuel-instrumented variant
returns the recursive function's value. -/
theorem calculate_recipe_cost_terminates (conn : Option DB) (items : List ScaledItem) :
    calcCostFuel conn items.length items = some (calculate_recipe_cost conn items) := by
  induction items with
  | nil => rfl
  | cons x rest ih =>
    show calcCostFuel conn (rest.length + 1) (x :: rest) = _
    cases conn with
    | none => rfl
    | some db =>
      simp only [calcCostFuel, calculate_recipe_cost, ih]
      cases hg : findIngredient db x.id with
      | none => rfl
      | some g =>
        cases hc : calculate_recipe_cost (some db) rest with
        | none => rfl
        | some t => rfl

end BrewMe
